import Mathlib

set_option autoImplicit false

/-! Shallow embedding of the file-monitoring core of knowledge-focus
(`src/tauri-app/src-tauri/src/file_monitor.rs` and
`src/tauri-app/src-tauri/src/file_monitor_debounced.rs`), together with
theorems checking the specification's claims about it.

Rust strings are modelled as Lean `String`; all string primitives used by
the code are re-implemented structurally over the character list so that
they evaluate by `decide`.  Unicode-aware `to_lowercase` is modelled by
ASCII `Char.toLower`, which agrees with it on every string the code
compares (extensions, patterns, path components). -/

/-! ## String utilities (models of the Rust `str` primitives used) -/

/-- Split a character list at every occurrence of `sep`
(Rust `str::split(sep)` for a `char` separator). -/
def splitCharsAux (sep : Char) : List Char → List Char → List (List Char)
  | [], acc => [acc.reverse]
  | c :: cs, acc =>
    if c = sep then acc.reverse :: splitCharsAux sep cs []
    else splitCharsAux sep cs (c :: acc)

/-- Rust `str::split(sep)` collected into a list. -/
def splitChar (s : String) (sep : Char) : List String :=
  (splitCharsAux sep s.data []).map String.mk

/-- Rust `str::starts_with` for a literal pattern. -/
def strStartsWith (s pre : String) : Bool :=
  pre.data.isPrefixOf s.data

/-- Rust `str::ends_with` for a literal pattern. -/
def strEndsWith (s suf : String) : Bool :=
  suf.data.isSuffixOf s.data

/-- Naive substring occurrence test over character lists. -/
def listContainsSub (pat : List Char) : List Char → Bool
  | [] => pat.isEmpty
  | c :: tl => pat.isPrefixOf (c :: tl) || listContainsSub pat tl

/-- Rust `str::contains` for a literal pattern. -/
def strContains (s pat : String) : Bool :=
  listContainsSub pat.data s.data

/-- Rust `str::to_lowercase` (ASCII model). -/
def strToLower (s : String) : String :=
  String.mk (s.data.map Char.toLower)

/-- Rust `str::trim_end_matches('/')`. -/
def trimEndSlashes (s : String) : String :=
  String.mk ((s.data.reverse.dropWhile (fun c => c = '/')).reverse)

/-- Rust `Path::file_name` on a slash-separated path string: the last real
component (empty components and `.` are skipped); `none` when the path ends
in `..` or has no component at all. -/
def rustFileName (p : String) : Option String :=
  match ((splitChar p '/').filter (fun c => decide (c ≠ "") && decide (c ≠ "."))).getLast? with
  | some c => if c = ".." then none else some c
  | none => none

/-- Rust `Path::extension` applied to a file name: the portion after the
last `.`, or `none` when there is no `.` after the first character. -/
def rustExtensionOfName (name : String) : Option String :=
  match splitChar name '.' with
  | [] => none
  | [_] => none
  | first :: rest =>
    if first = "" ∧ rest.length = 1 then none else rest.getLast?

/-- `FileMonitor::extract_extension`: the lowercased extension of the
path's file name. -/
def extractExtension (p : String) : Option String :=
  match rustFileName p with
  | none => none
  | some name => (rustExtensionOfName name).map strToLower

/-- Rust `Path::join` with a relative component string. -/
def joinPath (p q : String) : String :=
  if strEndsWith p "/" then p ++ q else p ++ "/" ++ q

/-! ## Data model (`file_monitor.rs` structs) -/

/-- Authorization state of a monitored directory. -/
inductive DirectoryAuthStatus
  | Pending
  | Authorized
  | Unauthorized
deriving DecidableEq

/-- `MonitoredDirectory` (fields the monitoring logic reads). -/
structure MonitoredDirectory where
  id : Option Int
  path : String
  is_blacklist : Bool
  auth_status : DirectoryAuthStatus
deriving DecidableEq

/-- `FileCategoryRust` (fields the monitoring logic reads). -/
structure FileCategoryRust where
  id : Int
  name : String
deriving DecidableEq

/-- `RuleTypeRust`. -/
inductive RuleTypeRust
  | Extension
  | Filename
  | Folder
  | Structure
  | OSBundle
deriving DecidableEq

/-- `RuleActionRust`. -/
inductive RuleActionRust
  | Include
  | Exclude
  | Tag
deriving DecidableEq

/-- `FileFilterRuleRust`.  The only part of `extra_data` the code reads is
the optional string under the key `tag_value`, modelled directly. -/
structure FileFilterRuleRust where
  id : Int
  name : String
  rule_type : RuleTypeRust
  category_id : Option Int
  action : RuleActionRust
  enabled : Bool
  pattern : String
  pattern_type : String
  tag_value : Option String
deriving DecidableEq

/-- `FileExtensionMapRust` (fields the monitoring logic reads). -/
structure FileExtensionMapRust where
  id : Int
  extension : String
  category_id : Int
deriving DecidableEq

/-- `AllConfigurations` (fields the monitoring logic reads). -/
structure AllConfigurations where
  file_categories : List FileCategoryRust
  file_filter_rules : List FileFilterRuleRust
  file_extension_maps : List FileExtensionMapRust
  monitored_folders : List MonitoredDirectory
  full_disk_access : Bool
deriving DecidableEq

/-- The JSON values `apply_initial_rules` stores in `extra_metadata`. -/
inductive JsonVal
  | num (n : Int)
  | str (s : String)
  | bool (b : Bool)
deriving DecidableEq

/-- `serde_json::Map` restricted to the operations the code performs:
keyed insert (replacing an existing binding) and lookup. -/
abbrev JsonMap := List (String × JsonVal)

/-- `Map::insert`: replace the binding when the key is present, otherwise
add it. -/
def jsonInsert (m : JsonMap) (k : String) (v : JsonVal) : JsonMap :=
  if m.any (fun e => decide (e.1 = k)) then
    m.map (fun e => if e.1 = k then (k, v) else e)
  else m ++ [(k, v)]

/-- `Map::get(k).is_some()`. -/
def jsonHasKey (m : JsonMap) (k : String) : Bool :=
  m.any (fun e => decide (e.1 = k))

/-- `FileMetadata`. -/
structure FileMetadata where
  file_path : String
  file_name : String
  extension : Option String
  file_size : Nat
  created_time : Nat
  modified_time : Nat
  is_dir : Bool
  is_hidden : Bool
  hash_value : Option String
  category_id : Option Int
  tags : Option (List String)
  initial_rule_matches : Option (List String)
  extra_metadata : Option JsonMap
  is_os_bundle : Option Bool
deriving DecidableEq

/-! ## File-system model -/

/-- What `fs::metadata` reports for one existing path. -/
structure FileStat where
  isDir : Bool
  size : Nat
  created : Nat
  modified : Nat
deriving DecidableEq

/-- Abstract read-only snapshot of the file system as consulted during one
classification: existence/stat data, `std::fs::canonicalize` (`none` on
error), the number of dot-entries `read_dir` reports, the value
`calculate_simple_hash` would produce, and `cfg!(target_os = "macos")`. -/
structure FileSystem where
  stat : String → Option FileStat
  canonicalize : String → Option String
  dotChildren : String → Nat
  contentHash : String → Option String
  macos : Bool

/-- `Path::exists`. -/
def pathExists (fs : FileSystem) (p : String) : Bool :=
  (fs.stat p).isSome

/-- `Path::is_dir`. -/
def pathIsDir (fs : FileSystem) (p : String) : Bool :=
  match fs.stat p with
  | some st => st.isDir
  | none => false

/-- `Path::is_file`. -/
def pathIsFile (fs : FileSystem) (p : String) : Bool :=
  match fs.stat p with
  | some st => !st.isDir
  | none => false

/-! ## Classification predicates -/

/-- `FileMonitor::is_hidden_file`: the file name starts with `.`, or some
slash-separated component other than `.`/`..` starts with `.`. -/
def isHiddenFile (p : String) : Bool :=
  (match rustFileName p with
   | some name => strStartsWith name "."
   | none => false)
  || (splitChar p '/').any (fun part =>
        decide (part ≠ "") && strStartsWith part "." &&
        decide (part ≠ ".") && decide (part ≠ ".."))

/-- The inline fallback extension list of `FileMonitor::is_macos_bundle_folder`. -/
def staticBundleExtensions : List String :=
  [".app", ".bundle", ".framework", ".fcpbundle", ".photoslibrary",
   ".imovielibrary", ".tvlibrary", ".theater"]

/-- `FileMonitor::is_macos_bundle_folder`: name or any path component ends
with a fallback bundle extension, or (directories on macOS) the path has a
`Contents` directory with an `Info.plist`/`MacOS`/`Resources` entry. -/
def isMacosBundleFolder (fs : FileSystem) (p : String) : Bool :=
  if p = "" then false
  else if (match rustFileName p with
           | some name => staticBundleExtensions.any (fun e => strEndsWith (strToLower name) e)
           | none => false) then true
  else if (splitChar p '/').any (fun c =>
            staticBundleExtensions.any (fun e => strEndsWith (strToLower c) e)) then true
  else if pathIsDir fs p && fs.macos then
    let contents := joinPath p "Contents"
    if pathExists fs contents && pathIsDir fs contents then
      pathExists fs (joinPath contents "Info.plist")
        || pathExists fs (joinPath contents "MacOS")
        || pathExists fs (joinPath contents "Resources")
    else false
  else false

/-- `FileMonitor::is_inside_macos_bundle`: the raw path string contains a
bundle extension followed by a slash. -/
def isInsideMacosBundle (p : String) : Bool :=
  [".app/", ".bundle/", ".framework/", ".fcpbundle/", ".photoslibrary/",
   ".imovielibrary/", ".tvlibrary/", ".theater/"].any (fun e => strContains p e)

/-- `FileMonitor::is_in_blacklist`: some blacklist directory is a prefix of
the path (with a trailing slash appended), equals the path exactly, or is a
prefix/exact match of the canonicalized path. -/
def isInBlacklist (fs : FileSystem) (blacklist : List MonitoredDirectory)
    (p : String) : Bool :=
  blacklist.any (fun d =>
    let trimmed := trimEndSlashes d.path
    let bp := if strEndsWith trimmed "/" then trimmed else trimmed ++ "/"
    strStartsWith p bp
    || decide (p = trimmed)
    || (match fs.canonicalize p with
        | some c => strStartsWith c bp || decide (c = trimmed)
        | none => false))

/-- Lowercased extension whitelist built from the configuration's
extension maps (the code collects it into a `HashSet`). -/
def validExtensions (cfg : AllConfigurations) : List String :=
  cfg.file_extension_maps.map (fun m => strToLower m.extension)

/-! ## Rule engine (`FileMonitor::apply_initial_rules`) -/

/-- Abstract stand-in for the `regex` crate: `compile pat` is `none` when
`Regex::new(pat)` fails, otherwise `is_match` as a predicate. -/
structure RegexEngine where
  compile : String → Option (String → Bool)

/-- The match test of one filter rule (`rule_type` x `pattern_type`), as
computed inside the rule loop of `apply_initial_rules`.  `filename` is the
already-lowercased file name. -/
def ruleMatched (re : RegexEngine) (filename : String) (ext : Option String)
    (r : FileFilterRuleRust) : Bool :=
  match r.rule_type with
  | .Filename =>
    if r.pattern_type = "keyword" then strContains filename (strToLower r.pattern)
    else if r.pattern_type = "regex" then
      match re.compile r.pattern with
      | some m => m filename
      | none => false
    else false
  | .OSBundle =>
    if r.pattern_type = "regex" then
      match re.compile r.pattern with
      | some m => m filename
      | none => false
    else false
  | .Extension =>
    match ext with
    | some e =>
      if r.pattern_type = "keyword" then decide (strToLower e = strToLower r.pattern)
      else if r.pattern_type = "regex" then
        match re.compile r.pattern with
        | some m => m e
        | none => false
      else false
    | none => false
  | _ => false

/-- State threaded through the filter-rule loop: the metadata being
mutated, the `extra_data` map, and the accumulated matched-rule names. -/
structure RuleLoopState where
  md : FileMetadata
  extra : JsonMap
  rule_matches : List String
deriving DecidableEq

/-- One iteration of the filter-rule loop of `apply_initial_rules`:
disabled rules are skipped; on a match the rule name is recorded, the
`OSBundle` regex arm marks an exclusion immediately, the action is
dispatched (`Tag` appends tags, `Exclude` marks the exclusion, `Include`
does nothing) and an explicit `category_id` overrides the current one. -/
def applyRule (re : RegexEngine) (filename : String) (st : RuleLoopState)
    (r : FileFilterRuleRust) : RuleLoopState :=
  if ¬ r.enabled then st
  else if ¬ ruleMatched re filename st.md.extension r then st
  else
    let extra1 :=
      if r.rule_type = .OSBundle then
        jsonInsert (jsonInsert (jsonInsert st.extra
          "excluded_by_rule_id" (.num r.id))
          "excluded_by_rule_name" (.str r.name))
          "is_macos_bundle" (.bool true)
      else st.extra
    let matches1 := st.rule_matches ++ [r.name]
    let md1 :=
      match r.action with
      | .Tag =>
        let tags0 := st.md.tags.getD []
        let tags1 := if r.name ∈ tags0 then tags0 else tags0 ++ [r.name]
        let tags2 :=
          match r.tag_value with
          | some tv => if tv ∈ tags1 then tags1 else tags1 ++ [tv]
          | none => tags1
        { st.md with tags := some tags2 }
      | _ => st.md
    let extra2 :=
      match r.action with
      | .Exclude =>
        jsonInsert (jsonInsert extra1 "excluded_by_rule_id" (.num r.id))
          "excluded_by_rule_name" (.str r.name)
      | _ => extra1
    let md2 :=
      match r.category_id with
      | some cid => { md1 with category_id := some cid }
      | none => md1
    { md := md2, extra := extra2, rule_matches := matches1 }

/-- The opening of `apply_initial_rules`: a hidden record is marked
excluded unconditionally (rule id 9999). -/
def hiddenExtra (mdIn : FileMetadata) : JsonMap :=
  if mdIn.is_hidden then
    jsonInsert (jsonInsert [] "excluded_by_rule_id" (.num 9999))
      "excluded_by_rule_name" (.str "隐藏文件自动排除")
  else []

/-- The extension-map phase of `apply_initial_rules`: the first matching
extension map assigns a category (and records the category name), an
`ext:`-tag is pushed, and the extension is recorded in `extra_data`. -/
def extMapPhase (cfg : AllConfigurations) (mdIn : FileMetadata)
    (extraA : JsonMap) : FileMetadata × JsonMap :=
  match mdIn.extension with
  | some ext =>
    let found := cfg.file_extension_maps.find?
      (fun (m : FileExtensionMapRust) => decide (m.extension = ext))
    let md1 :=
      match found with
      | some m => { mdIn with category_id := some m.category_id }
      | none => mdIn
    let extraB :=
      match found with
      | some m =>
        let catName :=
          match cfg.file_categories.find?
              (fun (c : FileCategoryRust) => decide (c.id = m.category_id)) with
          | some c => c.name
          | none => "unknown_category_id"
        jsonInsert extraA "file_type_from_ext_map" (.str catName)
      | none => extraA
    let md2 := { md1 with tags := some ((md1.tags.getD []) ++ ["ext:" ++ ext]) }
    let extraC := jsonInsert extraB "extension" (.str ext)
    (md2, extraC)
  | none => (mdIn, extraA)

/-- The closing of `apply_initial_rules`: write the matched-rule list and
the `extra_data` map back into the metadata when non-empty. -/
def writeBack (stF : RuleLoopState) : FileMetadata :=
  let md3 :=
    if stF.rule_matches ≠ [] then
      { stF.md with initial_rule_matches := some stF.rule_matches }
    else stF.md
  if stF.extra ≠ [] then { md3 with extra_metadata := some stF.extra } else md3

/-- `FileMonitor::apply_initial_rules` (the `MonitorStats` counter bumps,
which no decision depends on, are elided): hidden files are marked
excluded up front, the extension map assigns a first category and tags,
then every filter rule is applied in order; finally the matched-rule list
and the `extra_data` map are written back when non-empty. -/
def applyInitialRules (re : RegexEngine) (cfg : AllConfigurations)
    (mdIn : FileMetadata) : FileMetadata :=
  let step2 := extMapPhase cfg mdIn (hiddenExtra mdIn)
  let filename := strToLower mdIn.file_name
  let st0 : RuleLoopState :=
    { md := step2.1, extra := step2.2,
      rule_matches := mdIn.initial_rule_matches.getD [] }
  writeBack (cfg.file_filter_rules.foldl (applyRule re filename) st0)

/-! ## Classification pipeline (`FileMonitor::process_file_event`) -/

/-- `FileMonitor::get_file_metadata`. -/
def getFileMetadata (fs : FileSystem) (p : String) : Option FileMetadata :=
  match fs.stat p with
  | none => none
  | some st =>
    match rustFileName p with
    | none => none
    | some name =>
      some {
        file_path := p
        file_name := name
        extension := if !st.isDir then extractExtension p else none
        file_size := if st.isDir then 0 else st.size
        created_time := st.created
        modified_time := st.modified
        is_dir := st.isDir
        is_hidden := isHiddenFile p
        hash_value := none
        category_id := none
        tags := none
        initial_rule_matches := none
        extra_metadata := none
        is_os_bundle := some (isMacosBundleFolder fs p) }

/-- Which short-circuit of `process_file_event` fired (the code itself
only logs the reason and returns `None`). -/
inductive Rejection
  | removeEvent
  | notMonitored
  | configUnavailable
  | vanished
  | hidden
  | notWhitelisted
  | noExtension
  | bundle
  | insideBundle
  | bundleInfoPlist
  | manyDotFiles
  | blacklisted
  | metadataFailed
  | excludedByRule
deriving DecidableEq

/-- Result of one `process_file_event` call: the produced metadata (the
function's return value), which rejection fired if any, whether
`calculate_simple_hash` was invoked, and whether the rule engine
(`apply_initial_rules`) was reached. -/
structure ClassifyResult where
  output : Option FileMetadata
  rejection : Option Rejection
  hashComputed : Bool
  rulesEvaluated : Bool
deriving DecidableEq

/-- The event kinds `process_file_event` distinguishes. -/
inductive EventKind
  | create
  | remove
  | modify
deriving DecidableEq

/-- The configuration visible to `process_file_event`: the cache when
populated, otherwise the result of the fetch it performs (`none` when
that fetch fails). -/
def effectiveConfig (cfgCache fetched : Option AllConfigurations) :
    Option AllConfigurations :=
  match cfgCache with
  | some c => some c
  | none => fetched

/-- The extension part of the whitelist quick filter: the path has an
extension and that extension is missing from the whitelist. -/
def extNotWhitelisted (cfg : AllConfigurations) (p : String) : Bool :=
  match extractExtension p with
  | some e => !(validExtensions cfg).contains (strToLower e)
  | none => false

/-- The per-path membership gate: the event's path must lie under some
currently monitored directory. -/
def belongsToMonitored (monitored : List MonitoredDirectory) (p : String) : Bool :=
  monitored.any (fun d => strStartsWith p d.path)

/-- The exclusion gate at the end of `process_file_event`: a record whose
`extra_metadata` carries `excluded_by_rule_id` is dropped. -/
def excludedGate (md : FileMetadata) : Option FileMetadata :=
  match md.extra_metadata with
  | some extra => if jsonHasKey extra "excluded_by_rule_id" then none else some md
  | none => some md

/-- `FileMonitor::process_file_event`, with its short-circuiting filters in
source order: remove-events, the monitored-directory gate, the
configuration gate, existence, hidden paths, the extension whitelist
(files only), bundle and inside-bundle detection, the macOS
`Info.plist`/dot-file directory heuristics, the blacklist; then metadata
construction, content hashing (files only), rule application and the
final exclusion gate. -/
def processFileEvent (fs : FileSystem) (re : RegexEngine)
    (monitored blacklist : List MonitoredDirectory)
    (cfgCache fetched : Option AllConfigurations)
    (p : String) (ek : EventKind) : ClassifyResult :=
  if ek = .remove then ⟨none, some .removeEvent, false, false⟩
  else if ¬ belongsToMonitored monitored p then ⟨none, some .notMonitored, false, false⟩
  else
    match effectiveConfig cfgCache fetched with
    | none => ⟨none, some .configUnavailable, false, false⟩
    | some cfg =>
      if ¬ pathExists fs p then ⟨none, some .vanished, false, false⟩
      else if isHiddenFile p then ⟨none, some .hidden, false, false⟩
      else if pathIsFile fs p ∧ validExtensions cfg ≠ [] ∧
          extNotWhitelisted cfg p then ⟨none, some .notWhitelisted, false, false⟩
      else if pathIsFile fs p ∧ validExtensions cfg ≠ [] ∧ extractExtension p = none then
        ⟨none, some .noExtension, false, false⟩
      else if isMacosBundleFolder fs p then ⟨none, some .bundle, false, false⟩
      else if isInsideMacosBundle p then ⟨none, some .insideBundle, false, false⟩
      else if pathIsDir fs p ∧ fs.macos ∧ pathExists fs (joinPath p "Contents/Info.plist") then
        ⟨none, some .bundleInfoPlist, false, false⟩
      else if pathIsDir fs p ∧ fs.macos ∧ fs.dotChildren p > 5 then
        ⟨none, some .manyDotFiles, false, false⟩
      else if isInBlacklist fs blacklist p then ⟨none, some .blacklisted, false, false⟩
      else
        match getFileMetadata fs p with
        | none => ⟨none, some .metadataFailed, false, false⟩
        | some md0 =>
          let md1 :=
            if !md0.is_dir then { md0 with hash_value := fs.contentHash p } else md0
          let md2 := applyInitialRules re cfg md1
          match excludedGate md2 with
          | none => ⟨none, some .excludedByRule, !md0.is_dir, true⟩
          | some m => ⟨some m, none, !md0.is_dir, true⟩

/-! ## Batch ingestion pipeline (`FileMonitor::batch_processor`) -/

/-- `extra_metadata` carries the `excluded_by_rule_id` key. -/
def hasExcludedMark (md : FileMetadata) : Bool :=
  match md.extra_metadata with
  | some extra => jsonHasKey extra "excluded_by_rule_id"
  | none => false

/-- The whitelist the batch processor rebuilds from the configuration
cache (empty when the cache is empty). -/
def batchValidExtensions (cfgCache : Option AllConfigurations) : List String :=
  match cfgCache with
  | some cfg => validExtensions cfg
  | none => []

/-- The extension part of the batch processor's whitelist re-check: the
record's extension is absent or not in the whitelist. -/
def batchExtMissing (cfgCache : Option AllConfigurations) (md : FileMetadata) :
    Bool :=
  match md.extension with
  | some e => !(batchValidExtensions cfgCache).contains (strToLower e)
  | none => true

/-- Why `batch_processor` skipped a record, in the order the checks run. -/
inductive DropReason
  | hidden
  | bundle
  | ruleExcluded
  | invalidExtension
  | dsStore
  | directory
deriving DecidableEq

/-- The per-record drop decision of `batch_processor`, in source order:
hidden records, OS bundles, rule-excluded records, files with an absent or
non-whitelisted extension (only when the whitelist is non-empty),
`.DS_Store` names, and directories are dropped; everything else is
buffered. -/
def batchDropReason (cfgCache : Option AllConfigurations) (md : FileMetadata) :
    Option DropReason :=
  if md.is_hidden then some .hidden
  else if md.is_os_bundle.getD false then some .bundle
  else if hasExcludedMark md then some .ruleExcluded
  else if ¬ md.is_dir ∧ batchValidExtensions cfgCache ≠ [] ∧
      batchExtMissing cfgCache md then some .invalidExtension
  else if strContains md.file_name ".DS_Store" then some .dsStore
  else if md.is_dir then some .directory
  else none

/-- `BatchProcessorStats`. -/
structure BatchProcessorStats where
  received_files : Nat
  hidden_files_skipped : Nat
  rule_excluded_files_skipped : Nat
  invalid_extension_skipped : Nat
  ds_store_skipped : Nat
  directory_skipped : Nat
  bundle_skipped : Nat
  processed_files : Nat
deriving DecidableEq

/-- The counter `batch_processor` bumps for each drop reason. -/
def bumpCounter (s : BatchProcessorStats) : DropReason → BatchProcessorStats
  | .hidden => { s with hidden_files_skipped := s.hidden_files_skipped + 1 }
  | .bundle => { s with bundle_skipped := s.bundle_skipped + 1 }
  | .ruleExcluded =>
    { s with rule_excluded_files_skipped := s.rule_excluded_files_skipped + 1 }
  | .invalidExtension =>
    { s with invalid_extension_skipped := s.invalid_extension_skipped + 1 }
  | .dsStore => { s with ds_store_skipped := s.ds_store_skipped + 1 }
  | .directory => { s with directory_skipped := s.directory_skipped + 1 }

/-- State of the `batch_processor` select loop: the buffered batch, the
instant of the last dispatch, the statistics, and the list of batches
dispatched so far (newest last). -/
structure BatchLoopState where
  batch : List FileMetadata
  lastSend : Nat
  stats : BatchProcessorStats
  sent : List (List FileMetadata)
deriving DecidableEq

/-- One waking of the select loop: a metadata record arriving on the
channel at a given instant, or a timer tick at a given instant. -/
inductive LoopEvent
  | recv (now : Nat) (md : FileMetadata)
  | tick (now : Nat)
deriving DecidableEq

/-- One iteration of the `batch_processor` select loop.  A received record
is first filtered (`batchDropReason`); a surviving record is buffered and
the batch is dispatched once its length reaches `batchSize`.  A timer tick
dispatches a non-empty batch when at least `interval` has elapsed since
the last dispatch. -/
def batchLoopStep (cfgCache : Option AllConfigurations)
    (batchSize interval : Nat) (st : BatchLoopState) (e : LoopEvent) :
    BatchLoopState :=
  match e with
  | .recv now md =>
    let stats1 := { st.stats with received_files := st.stats.received_files + 1 }
    match batchDropReason cfgCache md with
    | some r => { st with stats := bumpCounter stats1 r }
    | none =>
      let stats2 := { stats1 with processed_files := stats1.processed_files + 1 }
      let batch1 := st.batch ++ [md]
      if batch1.length ≥ batchSize then
        { batch := [], lastSend := now, stats := stats2, sent := st.sent ++ [batch1] }
      else { st with batch := batch1, stats := stats2 }
  | .tick now =>
    if st.batch ≠ [] ∧ interval ≤ now - st.lastSend then
      { st with batch := [], lastSend := now, sent := st.sent ++ [st.batch] }
    else st

/-- The fields of `FileMonitor` fixed by `FileMonitor::new`
(`batch_interval` in seconds). -/
structure FileMonitorInit where
  monitored_dirs : List MonitoredDirectory
  blacklist_dirs : List MonitoredDirectory
  batch_size : Nat
  batch_interval : Nat
deriving DecidableEq

/-- `FileMonitor::new`. -/
def fileMonitorNew : FileMonitorInit :=
  { monitored_dirs := [], blacklist_dirs := [], batch_size := 50, batch_interval := 5 }

/-! ## Event debouncer (`file_monitor_debounced.rs`) -/

/-- The raw notify event kinds the watcher callback distinguishes:
`Create(_)`, `Remove(_)`, and everything else. -/
inductive RawKind
  | create
  | remove
  | modifyOther
deriving DecidableEq

/-- One raw event as seen by the watcher callback, with the value of
`path.exists() && path.is_file()` at the moment the callback ran. -/
structure RawEvent where
  path : String
  kind : RawKind
  existsIsFile : Bool
deriving DecidableEq

/-- The two normalized kinds buffered by the debouncer. -/
inductive NormalKind
  | create
  | remove
deriving DecidableEq

/-- Per-event normalization in the watcher callback of
`setup_single_debounced_watch`: `Create`/`Remove` pass through, any other
kind becomes `Create(File)` when the path currently exists as a file and
`Remove(File)` otherwise. -/
def normalizeIngest (e : RawEvent) : NormalKind :=
  match e.kind with
  | .create => .create
  | .remove => .remove
  | .modifyOther => if e.existsIsFile then .create else .remove

/-- The debounce buffer: one entry per path (`HashMap<PathBuf, EventKind>`,
modelled as an association list with at most one entry per key). -/
abbrev DebounceBuffer := List (String × NormalKind)

/-- `HashMap::insert`: a later event for the same path overwrites the
buffered one. -/
def bufferInsert (b : DebounceBuffer) (p : String) (k : NormalKind) :
    DebounceBuffer :=
  if b.any (fun e => decide (e.1 = p)) then
    b.map (fun e => if e.1 = p then (p, k) else e)
  else b ++ [(p, k)]

/-- All raw events of one debounce window folded into the buffer. -/
def ingestWindow (events : List RawEvent) : DebounceBuffer :=
  events.foldl (fun b e => bufferInsert b e.path (normalizeIngest e)) []

/-- `SimpleFileEvent`: the two logical kinds delivered downstream. -/
inductive SimpleFileEvent
  | added (p : String)
  | removed (p : String)
deriving DecidableEq

/-- The central handler's simplification of a buffered normalized kind
(`Create(_)` becomes Added, `Remove(_)` becomes Removed). -/
def simpleOfNormal (p : String) : NormalKind → SimpleFileEvent
  | .create => .added p
  | .remove => .removed p

/-- One debounce tick: every buffered entry is taken and forwarded once,
then simplified by the central handler. -/
def flushWindow (events : List RawEvent) : List SimpleFileEvent :=
  (ingestWindow events).map (fun e => simpleOfNormal e.1 e.2)

/-- The path a simplified event is about. -/
def eventPath : SimpleFileEvent → String
  | .added p => p
  | .removed p => p

/-! ## Configuration fetch, derived directory sets, startup retry -/

/-- The loop body of the folder partition in `fetch_and_store_all_config`:
a blacklist folder goes to the blacklist accumulator; otherwise the folder
is watched when `full_disk_access` holds or it is `Authorized`. -/
def deriveStep (fda : Bool)
    (acc : List MonitoredDirectory × List MonitoredDirectory)
    (dir : MonitoredDirectory) :
    List MonitoredDirectory × List MonitoredDirectory :=
  if dir.is_blacklist then (acc.1, acc.2 ++ [dir])
  else if (if fda then true else decide (dir.auth_status = .Authorized)) then
    (acc.1 ++ [dir], acc.2)
  else acc

/-- The directory-partition step of `fetch_and_store_all_config`: the
fetched `monitored_folders` are split into the watch set (non-blacklist
and, unless `full_disk_access` holds, `Authorized`) and the blacklist
set.  Returns `(watched, blacklist)`. -/
def deriveDirectorySets (cfg : AllConfigurations) :
    List MonitoredDirectory × List MonitoredDirectory :=
  cfg.monitored_folders.foldl (deriveStep cfg.full_disk_access) ([], [])

/-- The claim's characterization of a watched folder: not blacklisted and
either covered by full disk access or explicitly authorized. -/
def watchKeep (fda : Bool) (d : MonitoredDirectory) : Bool :=
  !d.is_blacklist && (if fda then true else decide (d.auth_status = .Authorized))

/-- The actions `start_monitoring_setup_and_initial_scan` performs, in
order. -/
inductive StartAction
  | fetchAttempt (i : Nat) (ok : Bool)
  | startBatchProcessor
  | startInitialScan
deriving DecidableEq

/-- The startup retry loop: attempt the configuration fetch, stop on the
first success, count a failure and try again while fewer than
`fuel` attempts remain.  `outcomes i` is what the i-th fetch returns.
Produces the trace of attempts and the first success, if any. -/
def retryTrace (outcomes : Nat → Option AllConfigurations) :
    Nat → Nat → List StartAction × Option (Nat × AllConfigurations)
  | 0, _ => ([], none)
  | fuel + 1, i =>
    match outcomes i with
    | some c => ([.fetchAttempt i true], some (i, c))
    | none =>
      let r := retryTrace outcomes fuel (i + 1)
      (.fetchAttempt i false :: r.1, r.2)

/-- The retry budget of `start_monitoring_setup_and_initial_scan`. -/
def maxConfigRetries : Nat := 30

/-- `FileMonitor::start_monitoring_setup_and_initial_scan` at the level of
its observable actions: retry the fetch up to 30 times; on total failure
return the reported error; on the first success derive the directory sets
from that response, then start the batch processor and the initial scan. -/
def startMonitoringModel (outcomes : Nat → Option AllConfigurations) :
    List StartAction ×
      Except String (List MonitoredDirectory × List MonitoredDirectory) :=
  match retryTrace outcomes maxConfigRetries 0 with
  | (tr, none) => (tr, .error "经过30秒尝试，无法连接到API服务获取配置")
  | (tr, some (_, c)) =>
    (tr ++ [.startBatchProcessor, .startInitialScan], .ok (deriveDirectorySets c))

/-! ## Bundle-extension cache (`file_monitor.rs`, TTL one hour) -/

/-- The cached bundle-extension list and its timestamp (seconds). -/
structure BundleCacheState where
  cache : Option (List String)
  timestamp : Option Nat
deriving DecidableEq

/-- `FileMonitor::get_fallback_bundle_extensions`. -/
def fallbackBundleExtensions : List String :=
  [".app", ".bundle", ".framework", ".fcpbundle", ".photoslibrary",
   ".imovielibrary", ".tvlibrary", ".theater", ".plugin", ".component",
   ".colorSync", ".mdimporter", ".qlgenerator", ".saver", ".service",
   ".wdgt", ".xpc"]

/-- `FileMonitor::is_bundle_cache_expired` (TTL 3600 seconds; a missing
timestamp or clock running backwards counts as expired). -/
def isBundleCacheExpired (st : BundleCacheState) (now : Nat) : Bool :=
  match st.timestamp with
  | some t => if t ≤ now then decide (now - t > 3600) else true
  | none => true

/-- `FileMonitor::get_cached_bundle_extensions`: the cached list when
present and fresh, the fallback list otherwise. -/
def getCachedBundleExtensions (st : BundleCacheState) (now : Nat) :
    List String :=
  match st.cache with
  | some exts => if ¬ isBundleCacheExpired st now then exts else fallbackBundleExtensions
  | none => fallbackBundleExtensions

/-- `FileMonitor::ensure_bundle_cache_valid`: when the cache is expired,
attempt a refresh (`refreshResult` is what the fetch returns, `none` on
failure; success stores the fetched list with the current timestamp), then
read through `get_cached_bundle_extensions`.  Returns the new cache state
and the returned list. -/
def ensureBundleCacheValid (st : BundleCacheState) (now : Nat)
    (refreshResult : Option (List String)) : BundleCacheState × List String :=
  if isBundleCacheExpired st now then
    match refreshResult with
    | some exts =>
      let st' : BundleCacheState := { cache := some exts, timestamp := some now }
      (st', getCachedBundleExtensions st' now)
    | none => (st, getCachedBundleExtensions st now)
  else (st, getCachedBundleExtensions st now)

/-! ## `FileMonitor::stop_monitoring_directory` -/

/-- Rust `Iterator::position`: index of the first element satisfying the
predicate. -/
def listPosition {α : Type} (p : α → Bool) : List α → Option Nat
  | [] => none
  | a :: l => if p a then some 0 else (listPosition p l).map (· + 1)

/-- `stop_monitoring_directory`: remove the first watched directory with
the given id; when one was found, also remove the first blacklist entry
with that id; report success exactly when a watched entry was found.
Returns `(watched, blacklist, ok)`. -/
def stopMonitoringDirectory (monitored blacklist : List MonitoredDirectory)
    (directoryId : Int) :
    List MonitoredDirectory × List MonitoredDirectory × Bool :=
  match listPosition (fun d => decide (d.id = some directoryId)) monitored with
  | some idx =>
    let monitored' := monitored.eraseIdx idx
    let blacklist' :=
      match listPosition (fun d => decide (d.id = some directoryId)) blacklist with
      | some j => blacklist.eraseIdx j
      | none => blacklist
    (monitored', blacklist', true)
  | none => (monitored, blacklist, false)

/-! ## Claim-side predicates (stated from the spec's wording, for the
theorems to relate to the embedded code) -/

/-- The spec's hidden-path condition: some path component other than
`.`/`..` starts with `.`. -/
def hasHiddenComponent (p : String) : Bool :=
  (splitChar p '/').any (fun part =>
    decide (part ≠ "") && strStartsWith part "." &&
    decide (part ≠ ".") && decide (part ≠ ".."))

/-- The claim's bundle-suffix condition: the file name or some path
component ends with a configured bundle extension (case-insensitively,
as the code compares). -/
def bundleSuffixed (p : String) : Bool :=
  (match rustFileName p with
   | some name => staticBundleExtensions.any (fun e => strEndsWith (strToLower name) e)
   | none => false)
  || (splitChar p '/').any (fun c =>
        staticBundleExtensions.any (fun e => strEndsWith (strToLower c) e))

/-- Whether the extension whitelist quick filter of `process_file_event`
rejects the path (either of its two reject arms fires). -/
def extGateRejects (fs : FileSystem) (cfg : AllConfigurations) (p : String) : Bool :=
  pathIsFile fs p && decide (validExtensions cfg ≠ []) &&
    (extNotWhitelisted cfg p || decide (extractExtension p = none))

/-! ## Concrete fixtures for witnesses and counterexamples -/

/-- A regex engine on which every compilation fails (the fixtures below
only use keyword rules, which never consult it). -/
def reEx : RegexEngine := ⟨fun _ => none⟩

/-- A monitored (authorized, non-blacklist) directory. -/
def dirEx : MonitoredDirectory :=
  { id := some 1, path := "/m", is_blacklist := false, auth_status := .Authorized }

/-- An enabled `Exclude` keyword rule on file names. -/
def ruleEx : FileFilterRuleRust :=
  { id := 7, name := "no-report", rule_type := .Filename, category_id := none,
    action := .Exclude, enabled := true, pattern := "report",
    pattern_type := "keyword", tag_value := none }

/-- A configuration with one category, one filter rule and a `pdf`
whitelist entry. -/
def cfgEx : AllConfigurations :=
  { file_categories := [{ id := 1, name := "document" }]
    file_filter_rules := [ruleEx]
    file_extension_maps := [{ id := 1, extension := "pdf", category_id := 1 }]
    monitored_folders := [dirEx]
    full_disk_access := false }

/-- A small file system under the monitored directory `/m`. -/
def fsEx : FileSystem :=
  { stat := fun p =>
      if p = "/m" then some ⟨true, 0, 0, 0⟩
      else if p = "/m/report.pdf" then some ⟨false, 100, 10, 20⟩
      else if p = "/m/.cache/a.pdf" then some ⟨false, 3, 1, 2⟩
      else if p = "/m/Foo.app/.secret" then some ⟨false, 5, 1, 2⟩
      else if p = "/m/Foo.app/doc.pdf" then some ⟨false, 9, 1, 2⟩
      else if p = "/m/notes.pdf" then some ⟨false, 50, 1, 2⟩
      else none
    canonicalize := fun _ => none
    dotChildren := fun _ => 0
    contentHash := fun _ => some "h"
    macos := false }

/-- The metadata record `get_file_metadata` would build for
`/m/report.pdf` after hashing. -/
def mdEx : FileMetadata :=
  { file_path := "/m/report.pdf", file_name := "report.pdf",
    extension := some "pdf", file_size := 100, created_time := 10,
    modified_time := 20, is_dir := false, is_hidden := false,
    hash_value := some "h", category_id := none, tags := none,
    initial_rule_matches := none, extra_metadata := none,
    is_os_bundle := some false }

/-- A hidden variant of `mdEx`. -/
def mdHiddenEx : FileMetadata := { mdEx with is_hidden := true }

/-- A blacklist directory. -/
def dirBlackEx : MonitoredDirectory :=
  { id := some 2, path := "/bl", is_blacklist := true, auth_status := .Pending }

/-- `cfgEx` with a blacklist folder next to the watched one. -/
def cfgEx2 : AllConfigurations := { cfgEx with monitored_folders := [dirEx, dirBlackEx] }

/-- An empty batch-loop state. -/
def batchSt0 : BatchLoopState :=
  { batch := [], lastSend := 0, stats := ⟨0, 0, 0, 0, 0, 0, 0, 0⟩, sent := [] }

/-- A batch-loop state with one buffered record and an old last dispatch. -/
def batchRdy : BatchLoopState :=
  { batch := [mdEx], lastSend := 0, stats := ⟨0, 0, 0, 0, 0, 0, 0, 0⟩, sent := [] }

/-- A fetch-outcome sequence failing 29 times and succeeding on the 30th
attempt. -/
def outcomes29 : Nat → Option AllConfigurations :=
  fun i => if i = 29 then some cfgEx else none
theorem erasePosition_eq_eraseP {α : Type} (p : α → Bool) :
    ∀ l : List α,
    (match listPosition p l with
     | some i => l.eraseIdx i
     | none => l) = l.eraseP p := by
  intro l
  induction l with
  | nil => rfl
  | cons a l ih =>
    cases h : p a with
    | true => simp [listPosition, h, List.eraseP_cons]
    | false =>
      simp only [listPosition, h, Bool.false_eq_true, if_false, List.eraseP_cons, cond_false]
      cases hf : listPosition p l with
      | none =>
        rw [hf] at ih
        simp only [Option.map_none']
        simp only at ih
        exact congrArg (a :: ·) ih
      | some i =>
        rw [hf] at ih
        simp only [Option.map_some']
        simp only at ih
        rw [List.eraseIdx_cons_succ]
        exact congrArg (a :: ·) ih

theorem listPosition_isSome_iff {α : Type} (l : List α) (p : α → Bool) :
    (listPosition p l).isSome = true ↔ ∃ a ∈ l, p a = true := by
  induction l with
  | nil => simp [listPosition]
  | cons a l ih =>
    by_cases h : p a <;> simp [listPosition, h, ih]

/-- Claim C10: `stop_monitoring_directory(id)` returns Ok exactly when a
directory with that id is present in the watched set; on success it
removes the first watched entry with that id and the first blacklist
entry with that id (if any); on error both sets are left unchanged. -/
theorem spec_c10 (monitored blacklist : List MonitoredDirectory)
    (directoryId : Int) :
    ((stopMonitoringDirectory monitored blacklist directoryId).2.2 = true ↔
      ∃ d ∈ monitored, d.id = some directoryId)
    ∧ ((stopMonitoringDirectory monitored blacklist directoryId).2.2 = true →
        (stopMonitoringDirectory monitored blacklist directoryId).1 =
          monitored.eraseP (fun d => decide (d.id = some directoryId))
        ∧ (stopMonitoringDirectory monitored blacklist directoryId).2.1 =
          blacklist.eraseP (fun d => decide (d.id = some directoryId)))
    ∧ ((stopMonitoringDirectory monitored blacklist directoryId).2.2 = false →
        (stopMonitoringDirectory monitored blacklist directoryId).1 = monitored
        ∧ (stopMonitoringDirectory monitored blacklist directoryId).2.1 = blacklist) := by
  have hiff := listPosition_isSome_iff monitored (fun d => decide (d.id = some directoryId))
  have hem := erasePosition_eq_eraseP (fun d => decide (d.id = some directoryId)) monitored
  have heb := erasePosition_eq_eraseP (fun d => decide (d.id = some directoryId)) blacklist
  unfold stopMonitoringDirectory
  cases hm : listPosition (fun d => decide (d.id = some directoryId)) monitored with
  | none =>
    rw [hm] at hiff
    simp only [Option.isSome_none, Bool.false_eq_true, false_iff] at hiff
    constructor
    · constructor
      · intro h
        exact absurd h (by simp)
      · intro hex
        exfalso
        apply hiff
        rcases hex with ⟨d, hd, hid⟩
        exact ⟨d, hd, by simpa using hid⟩
    · exact ⟨by simp, fun _ => ⟨rfl, rfl⟩⟩
  | some idx =>
    rw [hm] at hiff hem
    simp only at hem
    constructor
    · constructor
      · intro _
        rcases hiff.mp (by simp) with ⟨d, hd, hpd⟩
        exact ⟨d, hd, by simpa using hpd⟩
      · intro _
        rfl
    · refine ⟨fun _ => ⟨hem, ?_⟩, by simp⟩
      cases hb : listPosition (fun d => decide (d.id = some directoryId)) blacklist with
      | none =>
        rw [hb] at heb
        simpa using heb
      | some j =>
        rw [hb] at heb
        simpa using heb

/-- Claim C8: when the bundle-extension cache is expired and the refresh
fails, the getter returns the non-empty built-in fallback list (and, being
total, never an error); when the cache is fresh it returns the cached
list. -/
theorem spec_c8 (st : BundleCacheState) (now : Nat)
    (refreshResult : Option (List String)) :
    (isBundleCacheExpired st now = true → refreshResult = none →
      (ensureBundleCacheValid st now refreshResult).2 = fallbackBundleExtensions
      ∧ fallbackBundleExtensions ≠ [])
    ∧ (∀ exts, st.cache = some exts → isBundleCacheExpired st now = false →
      (ensureBundleCacheValid st now refreshResult).2 = exts) := by
  constructor
  · intro hexp href
    subst href
    refine ⟨?_, by decide⟩
    unfold ensureBundleCacheValid getCachedBundleExtensions
    cases hc : st.cache <;> simp [hexp, hc]
  · intro exts hc hfresh
    unfold ensureBundleCacheValid getCachedBundleExtensions
    simp [hfresh, hc]

theorem deriveSets_foldl (fda : Bool) (l : List MonitoredDirectory)
    (m b : List MonitoredDirectory) :
    l.foldl (deriveStep fda) (m, b)
    = (m ++ l.filter (watchKeep fda),
       b ++ l.filter (fun d => d.is_blacklist)) := by
  induction l generalizing m b with
  | nil => simp
  | cons d l ih =>
    rw [List.foldl_cons]
    by_cases hbl : d.is_blacklist = true
    · have hstep : deriveStep fda (m, b) d = (m, b ++ [d]) := by
        unfold deriveStep
        rw [if_pos hbl]
      have hw : watchKeep fda d = false := by
        unfold watchKeep
        simp [hbl]
      rw [hstep, ih, List.filter_cons, List.filter_cons]
      simp [hbl, hw]
    · by_cases hsm : (if fda then true else decide (d.auth_status = .Authorized)) = true
      · have hstep : deriveStep fda (m, b) d = (m ++ [d], b) := by
          unfold deriveStep
          rw [if_neg hbl, if_pos hsm]
        have hw : watchKeep fda d = true := by
          unfold watchKeep
          simp only [Bool.and_eq_true, Bool.not_eq_true']
          exact ⟨by simpa using hbl, hsm⟩
        rw [hstep, ih, List.filter_cons, List.filter_cons]
        simp [hbl, hw]
      · have hstep : deriveStep fda (m, b) d = (m, b) := by
          unfold deriveStep
          rw [if_neg hbl, if_neg hsm]
        have hw : watchKeep fda d = false := by
          unfold watchKeep
          rw [Bool.not_eq_true] at hsm
          simp [hsm]
        rw [hstep, ih, List.filter_cons, List.filter_cons]
        simp [hbl, hw]

/-- Claim C9: after a successful configuration fetch the blacklist set is
exactly the fetched folders with `is_blacklist`, the watched set is
exactly the non-blacklist folders that are authorized (or all non-blacklist
folders under full disk access), and no folder is in both sets. -/
theorem spec_c9 (cfg : AllConfigurations) :
    (deriveDirectorySets cfg).2 =
      cfg.monitored_folders.filter (fun d => d.is_blacklist)
    ∧ (deriveDirectorySets cfg).1 =
      cfg.monitored_folders.filter (watchKeep cfg.full_disk_access)
    ∧ ∀ d, d ∈ (deriveDirectorySets cfg).1 →
        d ∈ (deriveDirectorySets cfg).2 → False := by
  have hd : deriveDirectorySets cfg =
      (cfg.monitored_folders.filter (watchKeep cfg.full_disk_access),
       cfg.monitored_folders.filter (fun d => d.is_blacklist)) := by
    unfold deriveDirectorySets
    simpa using deriveSets_foldl cfg.full_disk_access cfg.monitored_folders [] []
  refine ⟨by rw [hd], by rw [hd], ?_⟩
  intro d hd1 hd2
  rw [hd] at hd1 hd2
  simp only [List.mem_filter] at hd1 hd2
  have h1 : d.is_blacklist = false := by
    have hk := hd1.2
    unfold watchKeep at hk
    simp only [Bool.and_eq_true, Bool.not_eq_true'] at hk
    exact hk.1
  rw [h1] at hd2
  exact absurd hd2.2 (by simp)

/-- Claim C5: the batch processor drops a received record, bumping the
counter matching the drop reason, exactly when it is hidden, an OS bundle,
marked excluded by a rule, a non-directory with an absent or
non-whitelisted extension while the whitelist is non-empty, named like
`.DS_Store`, or a directory; every other record is appended to the
batch. -/
theorem spec_c5 (cfgCache : Option AllConfigurations) (sz itv : Nat)
    (st : BatchLoopState) (now : Nat) (md : FileMetadata) :
    ((batchDropReason cfgCache md).isSome = true ↔
      (md.is_hidden = true ∨ md.is_os_bundle.getD false = true
       ∨ hasExcludedMark md = true
       ∨ (md.is_dir = false ∧ batchValidExtensions cfgCache ≠ []
           ∧ batchExtMissing cfgCache md = true)
       ∨ strContains md.file_name ".DS_Store" = true
       ∨ md.is_dir = true))
    ∧ (batchDropReason cfgCache md = none →
        (batchLoopStep cfgCache sz itv st (.recv now md)).batch = st.batch ++ [md]
        ∨ (batchLoopStep cfgCache sz itv st (.recv now md)).sent =
            st.sent ++ [st.batch ++ [md]])
    ∧ (∀ r, batchDropReason cfgCache md = some r →
        (batchLoopStep cfgCache sz itv st (.recv now md)).batch = st.batch
        ∧ (batchLoopStep cfgCache sz itv st (.recv now md)).sent = st.sent
        ∧ (batchLoopStep cfgCache sz itv st (.recv now md)).stats =
            bumpCounter
              { st.stats with received_files := st.stats.received_files + 1 } r) := by
  refine ⟨?_, ?_, ?_⟩
  · unfold batchDropReason
    split_ifs with h1 h2 h3 h4 h5 h6 <;> simp_all
  · intro hnone
    simp only [batchLoopStep]
    rw [hnone]
    by_cases hlen : (st.batch ++ [md]).length ≥ sz
    · right
      simp only [hlen, if_pos]
    · left
      rw [if_neg hlen]
  · intro r hr
    simp only [batchLoopStep]
    rw [hr]
    exact ⟨rfl, rfl, rfl⟩

/-- Claim C6: with the defaults batchSize = 50 and batchInterval = 5
seconds fixed by `FileMonitor::new`, one iteration of the batch loop
dispatches exactly when a surviving record fills the buffer to batchSize,
or a timer tick finds the buffer non-empty with at least batchInterval
elapsed since the last dispatch. -/
theorem spec_c6 :
    fileMonitorNew.batch_size = 50 ∧ fileMonitorNew.batch_interval = 5 ∧
    ∀ (cfgCache : Option AllConfigurations) (sz itv : Nat)
      (st : BatchLoopState) (e : LoopEvent),
      ((batchLoopStep cfgCache sz itv st e).sent ≠ st.sent ↔
        ((∃ now md, e = .recv now md ∧ batchDropReason cfgCache md = none
            ∧ sz ≤ st.batch.length + 1)
         ∨ (∃ now, e = .tick now ∧ st.batch ≠ [] ∧ itv ≤ now - st.lastSend))) := by
  refine ⟨rfl, rfl, ?_⟩
  intro cfgCache sz itv st e
  cases e with
  | recv now md =>
    simp only [batchLoopStep]
    cases hd : batchDropReason cfgCache md with
    | some r =>
      constructor
      · intro hcon
        exact absurd rfl hcon
      · rintro (⟨n, m, heq, hnone, _⟩ | ⟨n, heq, _⟩)
        · cases heq
          rw [hd] at hnone
          exact absurd hnone (by simp)
        · cases heq
    | none =>
      by_cases hlen : (st.batch ++ [md]).length ≥ sz
      · simp only [hlen, if_pos]
        constructor
        · intro _
          left
          refine ⟨now, md, rfl, hd, ?_⟩
          simpa using hlen
        · intro _
          intro hcon
          have hlencon := congrArg List.length hcon
          simp at hlencon
      · rw [if_neg hlen]
        constructor
        · intro hcon
          exact absurd rfl hcon
        · rintro (⟨n, m, heq, hnone, hsz⟩ | ⟨n, heq, _⟩)
          · cases heq
            simp only [List.length_append, List.length_singleton] at hlen
            omega
          · cases heq
  | tick now =>
    simp only [batchLoopStep]
    by_cases hc : st.batch ≠ [] ∧ itv ≤ now - st.lastSend
    · rw [if_pos hc]
      constructor
      · intro _
        right
        exact ⟨now, rfl, hc.1, hc.2⟩
      · intro _
        intro hcon
        have hlencon := congrArg List.length hcon
        simp at hlencon
    · rw [if_neg hc]
      constructor
      · intro hcon
        exact absurd rfl hcon
      · rintro (⟨n, m, heq, _, _⟩ | ⟨n, heq, hne, hit⟩)
        · cases heq
        · cases heq
          exact (hc ⟨hne, hit⟩).elim

theorem retryTrace_all_fail (outcomes : Nat → Option AllConfigurations) :
    ∀ (fuel i : Nat), (∀ j, i ≤ j → j < i + fuel → outcomes j = none) →
    retryTrace outcomes fuel i =
      ((List.range fuel).map (fun t => .fetchAttempt (i + t) false), none) := by
  intro fuel
  induction fuel with
  | zero =>
    intro i _
    simp [retryTrace]
  | succ n ih =>
    intro i h
    have h0 : outcomes i = none := h i le_rfl (by omega)
    simp only [retryTrace, h0]
    rw [ih (i + 1) (fun j hj1 hj2 => h j (by omega) (by omega))]
    simp only [Prod.mk.injEq, and_true]
    rw [List.range_succ_eq_map, List.map_cons, List.map_map]
    have harith : ∀ t ∈ List.range n,
        ((fun t => StartAction.fetchAttempt (i + t) false) ∘ Nat.succ) t =
          (fun t => StartAction.fetchAttempt (i + 1 + t) false) t := by
      intro t _
      simp only [Function.comp_apply]
      have : i + Nat.succ t = i + 1 + t := by omega
      rw [this]
    rw [List.map_congr_left harith]
    simp

theorem retryTrace_first_success (outcomes : Nat → Option AllConfigurations) :
    ∀ (k : Nat) (fuel i : Nat) (c : AllConfigurations), k < fuel →
    outcomes (i + k) = some c → (∀ t, t < k → outcomes (i + t) = none) →
    retryTrace outcomes fuel i =
      ((List.range k).map (fun t => .fetchAttempt (i + t) false)
        ++ [.fetchAttempt (i + k) true],
       some (i + k, c)) := by
  intro k
  induction k with
  | zero =>
    intro fuel i c hk hs _
    cases fuel with
    | zero => omega
    | succ n =>
      have h0 : outcomes i = some c := by simpa using hs
      simp [retryTrace, h0]
  | succ m ih =>
    intro fuel i c hk hs hfail
    cases fuel with
    | zero => omega
    | succ n =>
      have h0 : outcomes i = none := by simpa using hfail 0 (by omega)
      simp only [retryTrace, h0]
      have hs' : outcomes (i + 1 + m) = some c := by
        have harith : i + 1 + m = i + (m + 1) := by omega
        rw [harith]
        exact hs
      have hfail' : ∀ t, t < m → outcomes (i + 1 + t) = none := by
        intro t ht
        have harith : i + 1 + t = i + (t + 1) := by omega
        rw [harith]
        exact hfail (t + 1) (by omega)
      rw [ih n (i + 1) c (by omega) hs' hfail']
      simp only [Prod.mk.injEq]
      constructor
      · rw [List.range_succ_eq_map, List.map_cons, List.map_map]
        have harith : ∀ t ∈ List.range m,
            ((fun t => StartAction.fetchAttempt (i + t) false) ∘ Nat.succ) t =
              (fun t => StartAction.fetchAttempt (i + 1 + t) false) t := by
          intro t _
          simp only [Function.comp_apply]
          have : i + Nat.succ t = i + 1 + t := by omega
          rw [this]
        rw [List.map_congr_left harith]
        have harith2 : i + (m + 1) = i + 1 + m := by omega
        simp [harith2]
      · have harith2 : i + (m + 1) = i + 1 + m := by omega
        simp [harith2]

theorem retryTrace_only_fetch (outcomes : Nat → Option AllConfigurations) :
    ∀ (fuel i : Nat) (a : StartAction), a ∈ (retryTrace outcomes fuel i).1 →
      ∃ j ok, a = .fetchAttempt j ok := by
  intro fuel
  induction fuel with
  | zero =>
    intro i a ha
    simp [retryTrace] at ha
  | succ n ih =>
    intro i a ha
    simp only [retryTrace] at ha
    cases ho : outcomes i with
    | some c =>
      rw [ho] at ha
      simp at ha
      exact ⟨i, true, ha⟩
    | none =>
      rw [ho] at ha
      simp at ha
      rcases ha with h | h
      · exact ⟨i, false, h⟩
      · exact ih (i + 1) a h

/-- Claim C7: monitoring startup retries the configuration fetch up to 30
times; if all 30 attempts fail it returns the reported error and neither
the batch processor nor the initial scan is started; if attempt k (k < 30)
is the first success, the loop ends there, the directory sets are derived
from that response, and the batch processor and initial scan start only
after that success. -/
theorem spec_c7 (outcomes : Nat → Option AllConfigurations) :
    ((∀ i, i < 30 → outcomes i = none) →
      (startMonitoringModel outcomes).2 =
        .error "经过30秒尝试，无法连接到API服务获取配置"
      ∧ StartAction.startBatchProcessor ∉ (startMonitoringModel outcomes).1
      ∧ StartAction.startInitialScan ∉ (startMonitoringModel outcomes).1)
    ∧ (∀ k c, k < 30 → outcomes k = some c → (∀ j, j < k → outcomes j = none) →
      (startMonitoringModel outcomes).2 = .ok (deriveDirectorySets c)
      ∧ (startMonitoringModel outcomes).1 =
        ((List.range k).map (fun j => .fetchAttempt j false)
          ++ [.fetchAttempt k true, .startBatchProcessor, .startInitialScan])) := by
  constructor
  · intro hfail
    have htr := retryTrace_all_fail outcomes 30 0 (fun j _ hj2 => hfail j (by omega))
    unfold startMonitoringModel maxConfigRetries
    rw [htr]
    refine ⟨rfl, ?_, ?_⟩
    · intro hmem
      rcases retryTrace_only_fetch outcomes 30 0 _ (by rw [htr]; exact hmem) with ⟨j, ok, hjk⟩
      cases hjk
    · intro hmem
      rcases retryTrace_only_fetch outcomes 30 0 _ (by rw [htr]; exact hmem) with ⟨j, ok, hjk⟩
      cases hjk
  · intro k c hk hs hfail
    have htr := retryTrace_first_success outcomes k 30 0 c hk (by simpa using hs)
      (fun t ht => by simpa using hfail t ht)
    unfold startMonitoringModel maxConfigRetries
    rw [htr]
    refine ⟨rfl, ?_⟩
    simp

theorem hiddenComponent_isHidden (p : String) :
    hasHiddenComponent p = true → isHiddenFile p = true := by
  intro h
  unfold isHiddenFile
  unfold hasHiddenComponent at h
  rw [h]
  simp

/-- Claim C2: for every existing path with a path component starting with
`.` (other than `.`/`..`) that reaches classification (non-remove event,
under a monitored directory, configuration available), the result is the
hidden rejection: no `FileMetadata` is returned and no filter rule is
evaluated. -/
theorem spec_c2 (fs : FileSystem) (re : RegexEngine)
    (monitored blacklist : List MonitoredDirectory)
    (cfgCache fetched : Option AllConfigurations) (cfg : AllConfigurations)
    (p : String) (ek : EventKind)
    (hek : ek ≠ .remove)
    (hmon : belongsToMonitored monitored p = true)
    (hcfg : effectiveConfig cfgCache fetched = some cfg)
    (hex : pathExists fs p = true)
    (hhid : hasHiddenComponent p = true) :
    processFileEvent fs re monitored blacklist cfgCache fetched p ek =
      ⟨none, some .hidden, false, false⟩ := by
  have hh := hiddenComponent_isHidden p hhid
  unfold processFileEvent
  rw [if_neg hek, if_neg (by rw [hmon]; exact fun hcon => hcon rfl), hcfg]
  simp only [hex, hh]
  simp

theorem bundleSuffixed_isBundle (fs : FileSystem) (p : String)
    (h : bundleSuffixed p = true) : isMacosBundleFolder fs p = true := by
  have hp : p ≠ "" := by
    intro he
    subst he
    exact absurd h (by decide)
  unfold isMacosBundleFolder
  rw [if_neg hp]
  unfold bundleSuffixed at h
  by_cases h1 : (match rustFileName p with
      | some name => staticBundleExtensions.any (fun e => strEndsWith (strToLower name) e)
      | none => false) = true
  · rw [if_pos h1]
  · have h2 : (splitChar p '/').any (fun c =>
        staticBundleExtensions.any (fun e => strEndsWith (strToLower c) e)) = true := by
      rcases Bool.or_eq_true_iff.mp h with ha | hb
      · exact absurd ha h1
      · exact hb
    rw [if_neg h1, if_pos h2]

/-- Claim C3 (amended): for every path whose file name or path component
ends with a configured bundle extension, classification rejects the path
before any content-prefix hash is computed; when the path additionally is
not hidden and is not caught by the extension-whitelist quick filter, the
rejection is as bundle (or inside-bundle).  (As literally stated the claim
fails: the hidden and whitelist checks run first, see the
counterexample.) -/
theorem spec_c3_amended (fs : FileSystem) (re : RegexEngine)
    (monitored blacklist : List MonitoredDirectory)
    (cfgCache fetched : Option AllConfigurations) (cfg : AllConfigurations)
    (p : String) (ek : EventKind)
    (hek : ek ≠ .remove)
    (hmon : belongsToMonitored monitored p = true)
    (hcfg : effectiveConfig cfgCache fetched = some cfg)
    (hex : pathExists fs p = true)
    (hb : bundleSuffixed p = true) :
    (processFileEvent fs re monitored blacklist cfgCache fetched p ek).hashComputed = false
    ∧ (processFileEvent fs re monitored blacklist cfgCache fetched p ek).output = none
    ∧ (isHiddenFile p = false → extGateRejects fs cfg p = false →
        (processFileEvent fs re monitored blacklist cfgCache fetched p ek).rejection =
          some .bundle
        ∨ (processFileEvent fs re monitored blacklist cfgCache fetched p ek).rejection =
          some .insideBundle) := by
  have hbf := bundleSuffixed_isBundle fs p hb
  unfold processFileEvent
  rw [if_neg hek, if_neg (by rw [hmon]; exact fun hcon => hcon rfl), hcfg]
  simp only [hex, Bool.not_true, if_neg]
  by_cases hh : isHiddenFile p = true
  · simp [hh]
  · rw [Bool.not_eq_true] at hh
    simp only [hh, Bool.false_eq_true, if_false]
    by_cases hw1 : pathIsFile fs p = true ∧ validExtensions cfg ≠ [] ∧
        extNotWhitelisted cfg p = true
    · rw [if_pos hw1]
      refine ⟨rfl, rfl, ?_⟩
      intro _ hgate
      exfalso
      have hg : extGateRejects fs cfg p = true := by
        unfold extGateRejects
        rw [hw1.1, hw1.2.2]
        simp [hw1.2.1]
      rw [hgate] at hg
      exact absurd hg (by simp)
    · rw [if_neg hw1]
      by_cases hw2 : pathIsFile fs p = true ∧ validExtensions cfg ≠ [] ∧
          extractExtension p = none
      · rw [if_pos hw2]
        refine ⟨rfl, rfl, ?_⟩
        intro _ hgate
        exfalso
        have hg : extGateRejects fs cfg p = true := by
          unfold extGateRejects
          rw [hw2.1]
          simp [hw2.2.1, hw2.2.2]
        rw [hgate] at hg
        exact absurd hg (by simp)
      · rw [if_neg hw2, if_pos hbf]
        exact ⟨rfl, rfl, fun _ _ => Or.inl rfl⟩

theorem jsonInsert_hasKey_self (m : JsonMap) (k : String) (v : JsonVal) :
    jsonHasKey (jsonInsert m k v) k = true := by
  unfold jsonInsert jsonHasKey
  by_cases h : m.any (fun e => decide (e.1 = k)) = true
  · rw [if_pos h]
    rcases List.any_eq_true.mp h with ⟨e, he, hpe⟩
    have hek : e.1 = k := of_decide_eq_true hpe
    apply List.any_eq_true.mpr
    exact ⟨(k, v), List.mem_map.mpr ⟨e, he, by simp [hek]⟩, by simp⟩
  · rw [if_neg h]
    apply List.any_eq_true.mpr
    exact ⟨(k, v), by simp, by simp⟩

theorem jsonInsert_hasKey_mono (m : JsonMap) (k k' : String) (v : JsonVal)
    (h : jsonHasKey m k = true) : jsonHasKey (jsonInsert m k' v) k = true := by
  unfold jsonHasKey at h
  unfold jsonInsert jsonHasKey
  by_cases hany : m.any (fun e => decide (e.1 = k')) = true
  · rw [if_pos hany]
    rcases List.any_eq_true.mp h with ⟨e, he, hpe⟩
    have hek : e.1 = k := of_decide_eq_true hpe
    apply List.any_eq_true.mpr
    by_cases hek' : e.1 = k'
    · have hkk : k' = k := hek'.symm.trans hek
      exact ⟨(k', v), List.mem_map.mpr ⟨e, he, by simp [hek']⟩, by simp [hkk]⟩
    · exact ⟨e, List.mem_map.mpr ⟨e, he, by simp [hek']⟩, hpe⟩
  · rw [if_neg hany]
    rcases List.any_eq_true.mp h with ⟨e, he, hpe⟩
    exact List.any_eq_true.mpr ⟨e, by simp [he], hpe⟩

theorem applyRule_extension (re : RegexEngine) (filename : String)
    (st : RuleLoopState) (r : FileFilterRuleRust) :
    (applyRule re filename st r).md.extension = st.md.extension := by
  unfold applyRule
  by_cases h1 : ¬r.enabled = true
  · rw [if_pos h1]
  · rw [if_neg h1]
    by_cases h2 : ¬ruleMatched re filename st.md.extension r = true
    · rw [if_pos h2]
    · rw [if_neg h2]
      cases r.action <;> cases r.category_id <;> rfl

theorem applyRule_hasKey_mono (re : RegexEngine) (filename : String)
    (st : RuleLoopState) (r : FileFilterRuleRust) (k : String)
    (h : jsonHasKey st.extra k = true) :
    jsonHasKey (applyRule re filename st r).extra k = true := by
  unfold applyRule
  by_cases h1 : ¬r.enabled = true
  · rw [if_pos h1]
    exact h
  · rw [if_neg h1]
    by_cases h2 : ¬ruleMatched re filename st.md.extension r = true
    · rw [if_pos h2]
      exact h
    · rw [if_neg h2]
      by_cases hos : r.rule_type = RuleTypeRust.OSBundle <;>
        cases hact : r.action <;>
          simp only [hos, if_true, if_false, ite_true, ite_false] <;>
            first
              | exact h
              | exact jsonInsert_hasKey_mono _ _ _ _
                  (jsonInsert_hasKey_mono _ _ _ _ h)
              | exact jsonInsert_hasKey_mono _ _ _ _
                  (jsonInsert_hasKey_mono _ _ _ _
                    (jsonInsert_hasKey_mono _ _ _ _ h))
              | exact jsonInsert_hasKey_mono _ _ _ _
                  (jsonInsert_hasKey_mono _ _ _ _
                    (jsonInsert_hasKey_mono _ _ _ _
                      (jsonInsert_hasKey_mono _ _ _ _
                        (jsonInsert_hasKey_mono _ _ _ _ h))))

theorem applyRule_exclude_sets_key (re : RegexEngine) (filename : String)
    (st : RuleLoopState) (r : FileFilterRuleRust)
    (hen : r.enabled = true) (hact : r.action = RuleActionRust.Exclude)
    (hm : ruleMatched re filename st.md.extension r = true) :
    jsonHasKey (applyRule re filename st r).extra "excluded_by_rule_id" = true := by
  unfold applyRule
  rw [if_neg (by simp [hen]), if_neg (by simp [hm])]
  by_cases hos : r.rule_type = RuleTypeRust.OSBundle <;>
    simp only [hos, hact, if_true, if_false, ite_true, ite_false] <;>
      exact jsonInsert_hasKey_mono _ _ _ _ (jsonInsert_hasKey_self _ _ _)

theorem foldl_applyRule_extension (re : RegexEngine) (filename : String) :
    ∀ (rules : List FileFilterRuleRust) (st : RuleLoopState),
    ((rules.foldl (applyRule re filename) st).md.extension = st.md.extension) := by
  intro rules
  induction rules with
  | nil => intro st; rfl
  | cons r rules ih =>
    intro st
    rw [List.foldl_cons, ih, applyRule_extension]

theorem foldl_applyRule_hasKey_mono (re : RegexEngine) (filename : String)
    (k : String) :
    ∀ (rules : List FileFilterRuleRust) (st : RuleLoopState),
    jsonHasKey st.extra k = true →
    jsonHasKey ((rules.foldl (applyRule re filename) st).extra) k = true := by
  intro rules
  induction rules with
  | nil => intro st h; exact h
  | cons r rules ih =>
    intro st h
    rw [List.foldl_cons]
    exact ih _ (applyRule_hasKey_mono re filename st r k h)

theorem foldl_applyRule_excluded (re : RegexEngine) (filename : String)
    (r : FileFilterRuleRust)
    (hen : r.enabled = true) (hact : r.action = RuleActionRust.Exclude) :
    ∀ (rules : List FileFilterRuleRust) (st : RuleLoopState), r ∈ rules →
    ruleMatched re filename st.md.extension r = true →
    jsonHasKey ((rules.foldl (applyRule re filename) st).extra)
      "excluded_by_rule_id" = true := by
  intro rules
  induction rules with
  | nil =>
    intro st hmem
    exact absurd hmem (List.not_mem_nil r)
  | cons a rules ih =>
    intro st hmem hm
    rw [List.foldl_cons]
    rcases List.mem_cons.mp hmem with heq | htail
    · subst heq
      exact foldl_applyRule_hasKey_mono re filename _ rules _
        (applyRule_exclude_sets_key re filename st r hen hact hm)
    · exact ih _ htail (by rw [applyRule_extension]; exact hm)

theorem jsonHasKey_ne_nil (m : JsonMap) (k : String)
    (h : jsonHasKey m k = true) : m ≠ [] := by
  intro he
  subst he
  exact absurd h (by simp [jsonHasKey])

theorem writeBack_mark (stF : RuleLoopState) (k : String)
    (h : jsonHasKey stF.extra k = true) :
    (match (writeBack stF).extra_metadata with
     | some extra => jsonHasKey extra k
     | none => false) = true := by
  unfold writeBack
  rw [if_pos (jsonHasKey_ne_nil _ _ h)]
  by_cases hm : stF.rule_matches ≠ [] <;> simp [hm, h]

theorem extMapPhase_extension (cfg : AllConfigurations) (mdIn : FileMetadata)
    (extraA : JsonMap) :
    (extMapPhase cfg mdIn extraA).1.extension = mdIn.extension := by
  unfold extMapPhase
  cases hext : mdIn.extension with
  | none => exact hext
  | some e =>
    cases hf : cfg.file_extension_maps.find?
        (fun (m : FileExtensionMapRust) => decide (m.extension = e)) with
    | none => simp [hf, hext]
    | some mm => simp [hf, hext]

theorem excludedGate_of_mark (md : FileMetadata)
    (h : hasExcludedMark md = true) : excludedGate md = none := by
  unfold hasExcludedMark at h
  unfold excludedGate
  cases hm : md.extra_metadata with
  | none =>
    rw [hm] at h
    exact absurd h (by simp)
  | some extra =>
    rw [hm] at h
    have h' : jsonHasKey extra "excluded_by_rule_id" = true := h
    show (if jsonHasKey extra "excluded_by_rule_id" = true then none
          else some md) = none
    rw [if_pos h']

theorem batchDrop_of_mark (cfgCache : Option AllConfigurations)
    (md : FileMetadata) (h : hasExcludedMark md = true) :
    (batchDropReason cfgCache md).isSome = true := by
  unfold batchDropReason
  split_ifs <;> simp_all

/-- Claim C1 (amended): for every metadata record matching an enabled
`Exclude` filter rule, metadata construction is not stopped — the record
produced by `apply_initial_rules` carries the `excluded_by_rule`
marking — but `process_file_event` itself then drops the record (its
final gate returns none), so it never reaches the batch stage; the batch
stage's own filter would also drop any marked record that reached it.
(As literally stated the claim fails: the record is not removed *only* at
the Batch Ingestion stage, see the counterexample.) -/
theorem spec_c1_amended (re : RegexEngine) (cfg : AllConfigurations)
    (md : FileMetadata) (r : FileFilterRuleRust)
    (hr : r ∈ cfg.file_filter_rules) (hen : r.enabled = true)
    (hact : r.action = RuleActionRust.Exclude)
    (hm : ruleMatched re (strToLower md.file_name) md.extension r = true) :
    hasExcludedMark (applyInitialRules re cfg md) = true
    ∧ excludedGate (applyInitialRules re cfg md) = none
    ∧ ∀ cfgCache,
        (batchDropReason cfgCache (applyInitialRules re cfg md)).isSome = true := by
  have hkey : hasExcludedMark (applyInitialRules re cfg md) = true := by
    unfold applyInitialRules hasExcludedMark
    apply writeBack_mark
    apply foldl_applyRule_excluded re (strToLower md.file_name) r hen hact
      cfg.file_filter_rules _ hr
    rw [extMapPhase_extension]
    exact hm
  exact ⟨hkey, excludedGate_of_mark _ hkey, fun cc => batchDrop_of_mark cc _ hkey⟩

theorem ingestWindow_append (es : List RawEvent) (e : RawEvent) :
    ingestWindow (es ++ [e]) =
      bufferInsert (ingestWindow es) e.path (normalizeIngest e) := by
  unfold ingestWindow
  rw [List.foldl_append]
  rfl

theorem filter_bufferInsert_map (b : DebounceBuffer) (q p : String) (k : NormalKind) :
    ((b.map (fun e => if e.1 = q then (q, k) else e)).filter
        (fun e => decide (e.1 = p)))
      = ((b.filter (fun e => decide (e.1 = p))).map
          (fun e => if e.1 = q then (q, k) else e)) := by
  rw [List.filter_map]
  apply congrArg
  apply List.filter_congr
  intro x _
  by_cases hx : x.1 = q <;> simp [hx]

theorem ingestWindow_filter :
    ∀ (events : List RawEvent) (p : String),
    (ingestWindow events).filter (fun e => decide (e.1 = p)) =
      (match (events.filter (fun e => decide (e.path = p))).getLast? with
       | some last => [(p, normalizeIngest last)]
       | none => []) := by
  intro events
  induction events using List.reverseRecOn with
  | nil => intro p; rfl
  | append_singleton es e ih =>
    intro p
    rw [ingestWindow_append]
    by_cases hpq : e.path = p
    · subst hpq
      have hlast : ((es ++ [e]).filter (fun x => decide (x.path = e.path))).getLast? =
          some e := by
        rw [List.filter_append]
        simp
      rw [hlast]
      unfold bufferInsert
      by_cases hany : (ingestWindow es).any (fun x => decide (x.1 = e.path)) = true
      · rw [if_pos hany]
        rw [filter_bufferInsert_map]
        have hne : (ingestWindow es).filter (fun x => decide (x.1 = e.path)) ≠ [] := by
          rcases List.any_eq_true.mp hany with ⟨x, hx, hpx⟩
          intro hnil
          have : x ∈ (ingestWindow es).filter (fun x => decide (x.1 = e.path)) :=
            List.mem_filter.mpr ⟨hx, hpx⟩
          rw [hnil] at this
          exact List.not_mem_nil x this
        have := ih e.path
        cases hl : ((es.filter (fun x => decide (x.path = e.path))).getLast?) with
        | none =>
          rw [hl] at this
          exact absurd this hne
        | some l =>
          rw [hl] at this
          rw [this]
          simp
      · rw [if_neg hany]
        rw [List.filter_append]
        have hnil : (ingestWindow es).filter (fun x => decide (x.1 = e.path)) = [] := by
          rw [List.filter_eq_nil_iff]
          intro x hx
          intro hpx
          exact hany (List.any_eq_true.mpr ⟨x, hx, by simpa using hpx⟩)
        rw [hnil]
        simp
    · have hlast : ((es ++ [e]).filter (fun x => decide (x.path = p))).getLast? =
          (es.filter (fun x => decide (x.path = p))).getLast? := by
        rw [List.filter_append]
        simp [hpq]
      rw [hlast]
      unfold bufferInsert
      by_cases hany : (ingestWindow es).any (fun x => decide (x.1 = e.path)) = true
      · rw [if_pos hany]
        rw [filter_bufferInsert_map]
        have hfun : ∀ x ∈ (ingestWindow es).filter (fun e => decide (e.1 = p)),
            (fun e1 => if e1.1 = e.path then (e.path, normalizeIngest e) else e1) x =
              id x := by
          intro x hx
          have hxp : x.1 = p := by
            have := List.mem_filter.mp hx
            simpa using this.2
          simp only [id]
          rw [if_neg (by rw [hxp]; exact fun hc => hpq hc.symm)]
        rw [List.map_congr_left hfun, List.map_id]
        exact ih p
      · rw [if_neg hany]
        rw [List.filter_append]
        have : ([(e.path, normalizeIngest e)] : DebounceBuffer).filter
            (fun x => decide (x.1 = p)) = [] := by
          simp [hpq]
        rw [this, List.append_nil]
        exact ih p

/-- Claim C4: all raw events for a path within one debounce window are
coalesced into exactly one forwarded simplified event, whose kind is the
normalization of the last-arriving raw event (`Create`/`Modify` bursts
yield one Added; `Create` then `Remove` yields one Removed, as the witness
instantiates). -/
theorem spec_c4 (events : List RawEvent) (p : String) (last : RawEvent)
    (h : (events.filter (fun e => decide (e.path = p))).getLast? = some last) :
    (flushWindow events).filter (fun s => decide (eventPath s = p)) =
      [simpleOfNormal p (normalizeIngest last)] := by
  unfold flushWindow
  rw [List.filter_map]
  have hcong : ((ingestWindow events).filter
      ((fun s => decide (eventPath s = p)) ∘ (fun e => simpleOfNormal e.1 e.2)))
      = (ingestWindow events).filter (fun e => decide (e.1 = p)) := by
    apply List.filter_congr
    intro x _
    obtain ⟨xp, xk⟩ := x
    cases xk <;> rfl
  rw [hcong, ingestWindow_filter, h]
  rfl

/-- C1 counterexample: the enabled `Exclude` keyword rule of `cfgEx`
matches `/m/report.pdf`, yet `process_file_event` itself returns no
record (the classification stage removes it; nothing is handed to the
batch stage). -/
theorem spec_c1_counterexample :
    ruleEx ∈ cfgEx.file_filter_rules ∧ ruleEx.enabled = true
    ∧ ruleEx.action = RuleActionRust.Exclude
    ∧ ruleMatched reEx (strToLower "report.pdf") (some "pdf") ruleEx = true
    ∧ processFileEvent fsEx reEx [dirEx] [] (some cfgEx) none "/m/report.pdf"
        .create = ⟨none, some .excludedByRule, true, true⟩ := by
  decide

/-- C1 witness: the amended claim evaluated at the concrete fixture. -/
theorem spec_c1_witness :
    hasExcludedMark (applyInitialRules reEx cfgEx mdEx) = true
    ∧ excludedGate (applyInitialRules reEx cfgEx mdEx) = none
    ∧ (batchDropReason (some cfgEx) (applyInitialRules reEx cfgEx mdEx)).isSome
        = true := by
  have h := spec_c1_amended reEx cfgEx mdEx ruleEx (by decide) (by decide)
    (by decide) (by decide)
  exact ⟨h.1, h.2.1, h.2.2 (some cfgEx)⟩

/-- C2 witness: a hidden path under the monitored directory. -/
theorem spec_c2_witness :
    processFileEvent fsEx reEx [dirEx] [] (some cfgEx) none "/m/.cache/a.pdf"
      .create = ⟨none, some .hidden, false, false⟩ :=
  spec_c2 fsEx reEx [dirEx] [] (some cfgEx) none cfgEx "/m/.cache/a.pdf"
    .create (by decide) (by decide) (by decide) (by decide) (by decide)

/-- C3 counterexample: `/m/Foo.app/.secret` has a component ending in a
configured bundle extension, yet classification rejects it as hidden, not
as a bundle (no hash is computed either way). -/
theorem spec_c3_counterexample :
    bundleSuffixed "/m/Foo.app/.secret" = true
    ∧ pathExists fsEx "/m/Foo.app/.secret" = true
    ∧ processFileEvent fsEx reEx [dirEx] [] (some cfgEx) none
        "/m/Foo.app/.secret" .create = ⟨none, some .hidden, false, false⟩
    ∧ (processFileEvent fsEx reEx [dirEx] [] (some cfgEx) none
        "/m/Foo.app/.secret" .create).rejection ≠ some Rejection.bundle
    ∧ (processFileEvent fsEx reEx [dirEx] [] (some cfgEx) none
        "/m/Foo.app/.secret" .create).rejection ≠ some Rejection.insideBundle := by
  decide

/-- C3 witness: the amended claim at a non-hidden whitelisted bundle path. -/
theorem spec_c3_witness :
    (processFileEvent fsEx reEx [dirEx] [] (some cfgEx) none "/m/Foo.app/doc.pdf"
        .create).hashComputed = false
    ∧ ((processFileEvent fsEx reEx [dirEx] [] (some cfgEx) none "/m/Foo.app/doc.pdf"
          .create).rejection = some Rejection.bundle
       ∨ (processFileEvent fsEx reEx [dirEx] [] (some cfgEx) none "/m/Foo.app/doc.pdf"
          .create).rejection = some Rejection.insideBundle) := by
  have h := spec_c3_amended fsEx reEx [dirEx] [] (some cfgEx) none cfgEx
    "/m/Foo.app/doc.pdf" .create (by decide) (by decide) (by decide) (by decide)
    (by decide)
  exact ⟨h.1, h.2.2 (by decide) (by decide)⟩

/-- C4 witness: the two debounce scenarios of the claim. -/
theorem spec_c4_witness :
    (flushWindow [⟨"/m/f.txt", .create, true⟩, ⟨"/m/f.txt", .modifyOther, true⟩,
        ⟨"/m/f.txt", .modifyOther, true⟩]).filter
      (fun s => decide (eventPath s = "/m/f.txt")) =
      [SimpleFileEvent.added "/m/f.txt"]
    ∧ (flushWindow [⟨"/m/f.txt", .create, true⟩, ⟨"/m/f.txt", .remove, false⟩]).filter
      (fun s => decide (eventPath s = "/m/f.txt")) =
      [SimpleFileEvent.removed "/m/f.txt"] :=
  ⟨spec_c4 _ "/m/f.txt" ⟨"/m/f.txt", .modifyOther, true⟩ (by decide),
   spec_c4 _ "/m/f.txt" ⟨"/m/f.txt", .remove, false⟩ (by decide)⟩

/-- C5 witness: a hidden record is dropped with the hidden counter bumped. -/
theorem spec_c5_witness :
    (batchLoopStep (some cfgEx) 50 5 batchSt0 (.recv 1 mdHiddenEx)).batch =
      batchSt0.batch
    ∧ (batchLoopStep (some cfgEx) 50 5 batchSt0 (.recv 1 mdHiddenEx)).stats =
      bumpCounter
        { batchSt0.stats with
            received_files := batchSt0.stats.received_files + 1 }
        DropReason.hidden := by
  have h := (spec_c5 (some cfgEx) 50 5 batchSt0 1 mdHiddenEx).2.2
    DropReason.hidden (by decide)
  exact ⟨h.1, h.2.2⟩

/-- C6 witness: the defaults, and a tick past the interval dispatching a
non-empty buffer. -/
theorem spec_c6_witness :
    fileMonitorNew.batch_size = 50
    ∧ (batchLoopStep (some cfgEx) 50 5 batchRdy (.tick 10)).sent ≠ batchRdy.sent := by
  refine ⟨spec_c6.1, ?_⟩
  exact (spec_c6.2.2 (some cfgEx) 50 5 batchRdy (.tick 10)).mpr
    (Or.inr ⟨10, rfl, by decide, by decide⟩)

/-- C7 witness: 29 failures then a success on the 30th attempt. -/
theorem spec_c7_witness :
    (startMonitoringModel outcomes29).2 = .ok (deriveDirectorySets cfgEx)
    ∧ (startMonitoringModel outcomes29).1 =
        ((List.range 29).map (fun j => .fetchAttempt j false)
          ++ [.fetchAttempt 29 true, .startBatchProcessor, .startInitialScan]) :=
  (spec_c7 outcomes29).2 29 cfgEx (by decide) (by decide) (by decide)

/-- C8 witness: an empty expired cache with a failing refresh. -/
theorem spec_c8_witness :
    (ensureBundleCacheValid ⟨none, none⟩ 0 none).2 = fallbackBundleExtensions
    ∧ fallbackBundleExtensions ≠ [] :=
  (spec_c8 ⟨none, none⟩ 0 none).1 (by decide) rfl

/-- C9 witness: the partition of a two-folder configuration. -/
theorem spec_c9_witness :
    (deriveDirectorySets cfgEx2).1 = [dirEx]
    ∧ (deriveDirectorySets cfgEx2).2 = [dirBlackEx] := by
  have h := spec_c9 cfgEx2
  constructor
  · rw [h.2.1]
    decide
  · rw [h.1]
    decide

/-- C10 witness: stopping the watched directory with id 1. -/
theorem spec_c10_witness :
    (stopMonitoringDirectory [dirEx] [dirBlackEx] 1).2.2 = true
    ∧ (stopMonitoringDirectory [dirEx] [dirBlackEx] 1).1 = []
    ∧ (stopMonitoringDirectory [dirEx] [dirBlackEx] 1).2.1 = [dirBlackEx] := by
  have h := spec_c10 [dirEx] [dirBlackEx] 1
  have hok : (stopMonitoringDirectory [dirEx] [dirBlackEx] 1).2.2 = true :=
    h.1.mpr ⟨dirEx, by decide, by decide⟩
  refine ⟨hok, ?_, ?_⟩
  · rw [(h.2.1 hok).1]
    decide
  · rw [(h.2.1 hok).2]
    decide
